import Mathlib

/-!
Shallow embedding of the Ledger Avalanche client protocol driver
(`user_app.go`): version negotiation, public-key retrieval, and the
two-phase signing session (chunked upload, then per-path signature
collection).  Bytes are modelled as `Nat` with explicit `% 256` where the
source performs a `byte(..)` conversion.  The transport collaborator
(`ledger.api.Exchange`) is modelled as a function from the request bytes to
the pair (response bytes, optional error string), matching the Go
`Exchange(bytes) -> ([]byte, error)` contract.  Serializers
(`SerializePath`, `SerializePathSuffix`, `SerializeHrp`,
`SerializeChainID`) live outside this file's source and are taken as
function parameters returning `Except String (List Nat)`.
-/

namespace LedgerAvax

/-- Modelled from the spec: the APDU instruction/parameter constants
(`CLA`, `INS_*`, `P1_*`, `PAYLOAD_*`, `*_MESSAGE`) are declared outside the
source file under analysis.  Their concrete numeric values are irrelevant
to every claim below (only distinctness of the payload tags is used, which
the spec guarantees by making first/add/last distinct phases). -/
def CLA : Nat := 0x80

def INS_GET_VERSION : Nat := 0x00

def INS_GET_ADDR : Nat := 0x01

def INS_SIGN : Nat := 0x02

def INS_SIGN_HASH : Nat := 0x03

def P1_ONLY_RETRIEVE : Nat := 0x00

def P1_SHOW_ADDRESS_IN_DEVICE : Nat := 0x01

def PAYLOAD_INIT : Nat := 0x00

def PAYLOAD_ADD : Nat := 0x01

def PAYLOAD_LAST : Nat := 0x02

def FIRST_MESSAGE : Nat := 0x01

def NEXT_MESSAGE : Nat := 0x03

def LAST_MESSAGE : Nat := 0x02

/-- Modelled from the spec: a fixed chunk-size constant bounds per-frame
payload size during upload; the spec's signing scenario uses chunk size
250. -/
def CHUNK_SIZE : Nat := 250

/-- Modelled from the spec: status `0x9000` (`NoErrors`) signals success. -/
def NoErrors : Nat := 0x9000

/-- Result of a Go call: normal value, returned `error`, or a runtime
panic (out-of-range slice access). -/
inductive GoResult (α : Type) where
  | ok : α → GoResult α
  | err : String → GoResult α
  | crash : GoResult α
deriving Repr, DecidableEq

def GoResult.mapVal {α β : Type} (f : α → β) : GoResult α → GoResult β
  | .ok a => .ok (f a)
  | .err e => .err e
  | .crash => .crash

/-- Structure `VersionInfo` from the repository: app mode plus three version
components, each one byte. -/
structure VersionInfo where
  appMode : Nat
  major : Nat
  minor : Nat
  patch : Nat
deriving Repr, DecidableEq

/-- Structure `ResponseSign`: optional error message plus the path-suffix-keyed
signature map (modelled as an association list with Go-map insert
semantics). -/
structure ResponseSign where
  errorMessage : Option String
  signatures : List (String × List Nat)
deriving Repr, DecidableEq

/-- The transport collaborator: request bytes to (response bytes, optional
error string), as in Go `Exchange(bytes) -> ([]byte, error)`. -/
def Device : Type := List Nat → List Nat × Option String

/-- A serializer collaborator: Go `func(string) ([]byte, error)`. -/
def Serializer : Type := String → Except String (List Nat)

/-- Go map insert `m[k] = v`: replace the value when the key is present,
append the binding otherwise. -/
def mapInsert (k : String) (v : List Nat) : List (String × List Nat) → List (String × List Nat)
  | [] => [(k, v)]
  | (k2, v2) :: rest => if k2 = k then (k, v) :: rest else (k2, v2) :: mapInsert k v rest

def mapKeys (m : List (String × List Nat)) : List String := m.map Prod.fst

/-- The two trailing response bytes read as a big-endian status code
(`int(errorCodeData[0])*256 + int(errorCodeData[1])`). -/
def statusOf (response : List Nat) : Nat :=
  response.getD (response.length - 2) 0 * 256 + response.getD (response.length - 1) 0

/-- Conversion `string(response)` on the raw bytes, used by the two diagnostic error
branches of the upload loop. -/
def bytesToString (bs : List Nat) : String :=
  String.mk (bs.map Char.ofNat)

/-! ## Frame construction -/

/-- The fixed `GetVersion` request `{CLA, INS_GET_VERSION, 0, 0, 0}`. -/
def getVersionFrame : List Nat := [CLA, INS_GET_VERSION, 0, 0, 0]

/-- The `GetPubKey` request: header `{CLA, INS_GET_ADDR, p1, 0, 0}` with
the serialized hrp, chain id and path appended, then
`message[4] = byte(len(message) - len(header))`. -/
def getPubKeyFrame (p1 : Nat) (serializedHRP serializedChainID serializedPath : List Nat) :
    List Nat :=
  let header : List Nat := [CLA, INS_GET_ADDR, p1, 0, 0]
  let message := header ++ serializedHRP ++ serializedChainID ++ serializedPath
  message.set 4 ((message.length - 5) % 256)

/-- The signing-session init frame:
`{CLA, INS_SIGN, PAYLOAD_INIT, FIRST_MESSAGE, byte(len(serializedPath))}`
followed by the serialized path prefix. -/
def signInitFrame (serializedPath : List Nat) : List Nat :=
  [CLA, INS_SIGN, PAYLOAD_INIT, FIRST_MESSAGE, serializedPath.length % 256] ++ serializedPath

/-- One upload chunk as produced by the Sign loop: payload tag, `p2`, and
the chunk bytes. -/
structure UploadChunk where
  payloadType : Nat
  p2 : Nat
  chunk : List Nat
deriving Repr, DecidableEq

/-- The frame for one upload chunk:
`{CLA, INS_SIGN, byte(payloadType), byte(p2), byte(chunkSize)}` plus the
chunk bytes. -/
def chunkFrame (c : UploadChunk) : List Nat :=
  [CLA, INS_SIGN, c.payloadType % 256, c.p2 % 256, c.chunk.length % 256] ++ c.chunk

/-- The per-path `SIGN_HASH` frame: `{CLA, INS_SIGN_HASH, byte(p1), 0x00}`
followed by the serialized path suffix.  Note the header has four bytes:
the source builds no length byte for this instruction. -/
def signHashFrame (p1 : Nat) (pathBuf : List Nat) : List Nat :=
  [CLA, INS_SIGN_HASH, p1 % 256, 0] ++ pathBuf

/-! ## Chunking (the Uploading phase loop of `Sign`) -/

/-- The chunk loop of `Sign`
(`for i := 0; i < len(msg); i += CHUNK_SIZE`), phrased on the remaining
suffix of `msg`: when fewer than `C` bytes remain the final chunk is
tagged `PAYLOAD_LAST` (`end > len(msg)`), otherwise a full `C`-byte chunk
is tagged `PAYLOAD_ADD`; `p2` is `0` throughout.  The fuel argument is
only a termination device: `chunkFrames` supplies `msg.length`, which
bounds the iteration count whenever `0 < C`.  (With `C = 0` and a
non-empty `msg` the source loop diverges; the model is only used at
`CHUNK_SIZE = 250` and under `0 < C` hypotheses.) -/
def chunkFramesAux (C : Nat) : Nat → List Nat → List UploadChunk
  | 0, _ => []
  | _ + 1, [] => []
  | fuel + 1, b :: bs =>
    if (b :: bs).length < C then [⟨PAYLOAD_LAST, 0, b :: bs⟩]
    else ⟨PAYLOAD_ADD, 0, (b :: bs).take C⟩ :: chunkFramesAux C fuel ((b :: bs).drop C)

def chunkFrames (C : Nat) (msg : List Nat) : List UploadChunk :=
  chunkFramesAux C msg.length msg

/-! ## RemoveDuplicates and the upload payload -/

/-- Function `RemoveDuplicates`: walk the slice, skipping elements already
encountered, appending first occurrences to the result. -/
def removeDuplicatesAux (encountered : List String) : List String → List String
  | [] => []
  | x :: xs =>
    if x ∈ encountered then removeDuplicatesAux encountered xs
    else x :: removeDuplicatesAux (x :: encountered) xs

def removeDuplicates (elements : List String) : List String :=
  removeDuplicatesAux [] elements

/-- The path list `Sign` works with: `signingPaths`, with `changePaths`
appended and the whole list deduplicated only when `changePaths != nil`
(the `nil` slice is `none`; a present-but-empty slice is `some []`). -/
def effectivePaths (signingPaths : List String) (changePaths : Option (List String)) :
    List String :=
  match changePaths with
  | none => signingPaths
  | some cp => removeDuplicates (signingPaths ++ cp)

/-- Serialize every path suffix in order, concatenating the buffers;
`none` as soon as one fails (the Go loop returns `nil` there). -/
def pathSuffixBytes (sps : Serializer) : List String → Option (List Nat)
  | [] => some []
  | p :: ps =>
    match sps p with
    | .error _ => none
    | .ok b => (pathSuffixBytes sps ps).map (fun rest => b ++ rest)

/-- Function `ConcatMessageAndChangePath`: a count byte `byte(len(path))`, each
suffix serialization, then the message; `nil` (here `[]`) when any suffix
fails to serialize.  The Go `path == nil` branch returns `{0} ++ msg`,
which is byte-for-byte what the empty list produces, so `nil` and empty
collapse soundly to `[]`. -/
def concatMessageAndChangePath (sps : Serializer) (message : List Nat) (path : List String) :
    List Nat :=
  match pathSuffixBytes sps path with
  | none => []
  | some buf => (path.length % 256) :: buf ++ message

/-! ## GetVersion and CheckVersion -/

/-- Method `GetVersion`: exchange the fixed frame; fewer than four response bytes
is `invalid response`, otherwise the first four bytes become
`{AppMode, Major, Minor, Patch}`. -/
def getVersion (device : Device) : Except String VersionInfo :=
  match device getVersionFrame with
  | (_, some e) => .error e
  | (response, none) =>
    if response.length < 4 then .error "invalid response"
    else .ok ⟨response.getD 0 0, response.getD 1 0, response.getD 2 0, response.getD 3 0⟩

/-- The `CheckVersion` method on `LedgerAvalanche`: it re-fetches the
version from the device and hands the fetched value, together with the
hardcoded minimum `VersionInfo{0, 0, 6, 5}`, to the free comparison
function `CheckVersion` (declared outside this source file, so taken here
as the parameter `checkVersionFn`).  The `ver` argument is bound but never
read. -/
def checkVersionMethod (checkVersionFn : VersionInfo → VersionInfo → Option String)
    (device : Device) (ver : VersionInfo) : Option String :=
  match getVersion device with
  | .error e => some e
  | .ok version => checkVersionFn version ⟨0, 0, 6, 5⟩

/-! ## GetPubKey -/

/-- The response parsing of `GetPubKey`: guard
`len(response) < 35 + len(hrp)`, then
`publicKeyLen := response[0]`, `publicKey := response[1 : publicKeyLen+1]`
and `hash := response[publicKeyLen+1 : len(response)]`.  The two slice
expressions panic when `publicKeyLen + 1 > len(response)`, modelled as
`.crash`. -/
def parsePubKeyResponse (hrp : String) (response : List Nat) : GoResult (List Nat × List Nat) :=
  if response.length < 35 + hrp.length then .err "Invalid response"
  else
    let publicKeyLen := response.getD 0 0
    if response.length < publicKeyLen + 1 then .crash
    else .ok ((response.drop 1).take publicKeyLen, response.drop (publicKeyLen + 1))

/-- Method `GetPubKey`: reject long hrp strings, serialize the three inputs,
build the frame, exchange it, and parse the response. -/
def getPubKey (serializeHrp serializeChainID sp : Serializer) (device : Device)
    (path : String) (showAddr : Bool) (hrp chainid : String) : GoResult (List Nat × List Nat) :=
  if 83 < hrp.length then .err "hrp len should be < 83 chars"
  else
    match serializeHrp hrp with
    | .error e => .err e
    | .ok serializedHRP =>
      match serializeChainID chainid with
      | .error e => .err e
      | .ok serializedChainID =>
        match sp path with
        | .error e => .err e
        | .ok serializedPath =>
          let p1 := if showAddr then P1_SHOW_ADDRESS_IN_DEVICE else P1_ONLY_RETRIEVE
          match device (getPubKeyFrame p1 serializedHRP serializedChainID serializedPath) with
          | (_, some e) => .err e
          | (response, none) => parsePubKeyResponse hrp response

/-! ## SignAndCollect (the Collecting phase) -/

/-- The value of `p1` for one collection round trip:
`LAST_MESSAGE` on the final path, `NEXT_MESSAGE` before it
(`idx < len(signingPaths)-1`, i.e. the tail of remaining paths is
non-empty). -/
def collectP1 (rest : List String) : Nat :=
  if rest.isEmpty then LAST_MESSAGE else NEXT_MESSAGE

/-- The result of the `SignAndCollect` loop, one path suffix at a time:
serialize the suffix, exchange the (4-byte-header) `SIGN_HASH` frame, read
the trailing status; a `NoErrors` status with more than the two status
bytes records `response[:len(response)-2]` under the suffix, a `NoErrors`
status with nothing but the status bytes records nothing and continues,
any other status returns `signing hash failed`.  Reading
`response[len(response)-2:]` panics (`.crash`) when the response is
shorter than two bytes. -/
def signAndCollectResult (sps : Serializer) (device : Device) :
    List String → List (String × List Nat) → GoResult (List (String × List Nat))
  | [], acc => .ok acc
  | suffix :: rest, acc =>
    match sps suffix with
    | .error e => .err e
    | .ok pathBuf =>
      match device (signHashFrame (collectP1 rest) pathBuf) with
      | (_, some e) => .err e
      | (response, none) =>
        if response.length < 2 then .crash
        else
          if statusOf response = NoErrors then
            if 2 < response.length then
              signAndCollectResult sps device rest
                (mapInsert suffix (response.take (response.length - 2)) acc)
            else signAndCollectResult sps device rest acc
          else .err "signing hash failed"

/-- The frames sent by the `SignAndCollect` loop, in order (the control
flow stops after the first failing round trip; which frames are sent does
not depend on the accumulated signatures). -/
def signAndCollectFrames (sps : Serializer) (device : Device) : List String → List (List Nat)
  | [] => []
  | suffix :: rest =>
    match sps suffix with
    | .error _ => []
    | .ok pathBuf =>
      let frame := signHashFrame (collectP1 rest) pathBuf
      match device frame with
      | (_, some _) => [frame]
      | (response, none) =>
        if response.length < 2 then [frame]
        else
          if statusOf response = NoErrors then frame :: signAndCollectFrames sps device rest
          else [frame]

/-- Function `SignAndCollect`: run the loop from an empty map and wrap a successful
map into `&ResponseSign{nil, signatures}`; paired with the frames it sent. -/
def signAndCollect (sps : Serializer) (device : Device) (signingPaths : List String) :
    List (List Nat) × GoResult ResponseSign :=
  (signAndCollectFrames sps device signingPaths,
    (signAndCollectResult sps device signingPaths []).mapVal (fun m => ⟨none, m⟩))

/-! ## Sign (init, upload, collect) -/

/-- The error text the transport reports for `APDU_CODE_BAD_KEY_HANDLE`. -/
def badKeyHandleMessage : String :=
  "[APDU_CODE_BAD_KEY_HANDLE] The parameters in the data field are incorrect"

/-- The error text the transport reports for `APDU_CODE_DATA_INVALID`. -/
def dataInvalidMessage : String :=
  "[APDU_CODE_DATA_INVALID] Referenced data reversibly blocked (invalidated)"

/-- The upload loop of `Sign`: exchange each chunk frame in order; on a
transport error whose text matches one of the two diagnostic conditions,
surface the raw response body as the error text, otherwise propagate the
transport error; returns the frames actually sent. -/
def uploadLoop (device : Device) : List UploadChunk → List (List Nat) × GoResult Unit
  | [] => ([], .ok ())
  | c :: cs =>
    let frame := chunkFrame c
    match device frame with
    | (response, some e) =>
      if e = badKeyHandleMessage ∨ e = dataInvalidMessage then
        ([frame], .err (bytesToString response))
      else ([frame], .err e)
    | (_, none) =>
      let next := uploadLoop device cs
      (frame :: next.1, next.2)

/-- Method `Sign`: build the effective path list, send the init frame (any
transport failure there becomes `command rejected`), upload
`ConcatMessageAndChangePath(message, paths)` in `CHUNK_SIZE` chunks, then
collect one signature per original signing path.  Returns the list of
frames sent in order together with the Go result. -/
def sign (sp sps : Serializer) (device : Device) (prefixPath : String)
    (signingPaths : List String) (message : List Nat) (changePaths : Option (List String)) :
    List (List Nat) × GoResult ResponseSign :=
  let paths := effectivePaths signingPaths changePaths
  match sp prefixPath with
  | .error e => ([], .err e)
  | .ok serializedPath =>
    let initFrame := signInitFrame serializedPath
    match device initFrame with
    | (_, some _) => ([initFrame], .err "command rejected")
    | (_, none) =>
      let msg := concatMessageAndChangePath sps message paths
      let up := uploadLoop device (chunkFrames CHUNK_SIZE msg)
      match up.2 with
      | .err e => (initFrame :: up.1, .err e)
      | .crash => (initFrame :: up.1, .crash)
      | .ok _ =>
        let col := signAndCollect sps device signingPaths
        (initFrame :: (up.1 ++ col.1), col.2)

/-! ## Chunking lemmas -/

theorem chunkFramesAux_nil (C fuel : Nat) : chunkFramesAux C fuel [] = [] := by
  cases fuel <;> rfl

theorem chunkFramesAux_cons_lt (C fuel : Nat) (b : Nat) (bs : List Nat)
    (h : (b :: bs).length < C) :
    chunkFramesAux C (fuel + 1) (b :: bs) = [⟨PAYLOAD_LAST, 0, b :: bs⟩] := by
  simp only [chunkFramesAux, if_pos h]

theorem chunkFramesAux_cons_ge (C fuel : Nat) (b : Nat) (bs : List Nat)
    (h : ¬ (b :: bs).length < C) :
    chunkFramesAux C (fuel + 1) (b :: bs) =
      ⟨PAYLOAD_ADD, 0, (b :: bs).take C⟩ :: chunkFramesAux C fuel ((b :: bs).drop C) := by
  simp only [chunkFramesAux, if_neg h]

theorem chunkFramesAux_length (C : Nat) (hC : 0 < C) :
    ∀ (fuel : Nat) (msg : List Nat), msg.length ≤ fuel →
      (chunkFramesAux C fuel msg).length = (msg.length + C - 1) / C := by
  intro fuel
  induction fuel with
  | zero =>
    intro msg hm
    have hnil : msg = [] := List.eq_nil_of_length_eq_zero (Nat.le_zero.mp hm)
    subst hnil
    simp only [chunkFramesAux, List.length_nil, Nat.zero_add]
    exact (Nat.div_eq_of_lt (by omega)).symm
  | succ fuel ih =>
    intro msg hm
    match msg with
    | [] =>
      simp only [chunkFramesAux, List.length_nil, Nat.zero_add]
      exact (Nat.div_eq_of_lt (by omega)).symm
    | b :: bs =>
      by_cases hlt : (b :: bs).length < C
      · rw [chunkFramesAux_cons_lt C fuel b bs hlt]
        simp only [List.length_cons] at hlt
        simp only [List.length_singleton, List.length_cons]
        have h1 : 1 * C ≤ bs.length + 1 + C - 1 := by omega
        have h2 : bs.length + 1 + C - 1 < (1 + 1) * C := by omega
        exact (Nat.div_eq_of_lt_le h1 h2).symm
      · have hC2 : C ≤ bs.length + 1 := by
          simpa using Nat.le_of_not_lt hlt
        have hm2 : bs.length + 1 ≤ fuel + 1 := by simpa using hm
        have hdrop : ((b :: bs).drop C).length ≤ fuel := by
          simp only [List.length_drop, List.length_cons]
          omega
        rw [chunkFramesAux_cons_ge C fuel b bs hlt]
        simp only [List.length_cons, ih _ hdrop, List.length_drop]
        have e1 : bs.length + 1 - C + C - 1 = bs.length := by omega
        have e2 : bs.length + 1 + C - 1 = bs.length + C := by omega
        rw [e1, e2, Nat.add_div_right _ hC]

theorem chunkFramesAux_dropLast (C : Nat) (hC : 0 < C) :
    ∀ (fuel : Nat) (msg : List Nat), msg.length ≤ fuel →
      ∀ fr ∈ (chunkFramesAux C fuel msg).dropLast,
        fr.payloadType = PAYLOAD_ADD ∧ fr.p2 = 0 ∧ fr.chunk.length = C := by
  intro fuel
  induction fuel with
  | zero =>
    intro msg hm fr hfr
    have hnil : msg = [] := List.eq_nil_of_length_eq_zero (Nat.le_zero.mp hm)
    subst hnil
    simp [chunkFramesAux] at hfr
  | succ fuel ih =>
    intro msg hm fr hfr
    match msg with
    | [] => simp [chunkFramesAux] at hfr
    | b :: bs =>
      by_cases hlt : (b :: bs).length < C
      · rw [chunkFramesAux_cons_lt C fuel b bs hlt] at hfr
        simp at hfr
      · have hC2 : C ≤ (b :: bs).length := Nat.le_of_not_lt hlt
        have hdrop : ((b :: bs).drop C).length ≤ fuel := by
          simp only [List.length_drop, List.length_cons]
          simp only [List.length_cons] at hm
          omega
        rw [chunkFramesAux_cons_ge C fuel b bs hlt] at hfr
        rcases heq : chunkFramesAux C fuel ((b :: bs).drop C) with _ | ⟨r, rs⟩
        · rw [heq] at hfr
          simp at hfr
        · rw [heq, List.dropLast_cons₂] at hfr
          rcases List.mem_cons.mp hfr with hfr1 | hfr2
          · subst hfr1
            refine ⟨rfl, rfl, ?_⟩
            simp only [List.length_take, List.length_cons]
            simp only [List.length_cons] at hC2
            omega
          · exact ih _ hdrop fr (heq ▸ hfr2)

theorem chunkFramesAux_p2 (C : Nat) :
    ∀ (fuel : Nat) (msg : List Nat), ∀ fr ∈ chunkFramesAux C fuel msg, fr.p2 = 0 := by
  intro fuel
  induction fuel with
  | zero => intro msg fr hfr; simp [chunkFramesAux] at hfr
  | succ fuel ih =>
    intro msg fr hfr
    match msg with
    | [] => simp [chunkFramesAux] at hfr
    | b :: bs =>
      by_cases hlt : (b :: bs).length < C
      · rw [chunkFramesAux_cons_lt C fuel b bs hlt] at hfr
        simp only [List.mem_singleton] at hfr
        subst hfr; rfl
      · rw [chunkFramesAux_cons_ge C fuel b bs hlt] at hfr
        simp only [List.mem_cons] at hfr
        rcases hfr with hfr1 | hfr2
        · subst hfr1; rfl
        · exact ih _ fr hfr2

theorem chunkFramesAux_join (C : Nat) (hC : 0 < C) :
    ∀ (fuel : Nat) (msg : List Nat), msg.length ≤ fuel →
      ((chunkFramesAux C fuel msg).map (fun fr => fr.chunk)).flatten = msg := by
  intro fuel
  induction fuel with
  | zero =>
    intro msg hm
    have hnil : msg = [] := List.eq_nil_of_length_eq_zero (Nat.le_zero.mp hm)
    subst hnil; rfl
  | succ fuel ih =>
    intro msg hm
    match msg with
    | [] => rfl
    | b :: bs =>
      by_cases hlt : (b :: bs).length < C
      · rw [chunkFramesAux_cons_lt C fuel b bs hlt]
        simp
      · have hdrop : ((b :: bs).drop C).length ≤ fuel := by
          simp only [List.length_drop, List.length_cons]
          simp only [List.length_cons] at hm
          omega
        rw [chunkFramesAux_cons_ge C fuel b bs hlt]
        simp only [List.map_cons, List.flatten_cons, ih _ hdrop]
        exact List.take_append_drop C (b :: bs)

theorem chunkFramesAux_getLast (C : Nat) (hC : 0 < C) :
    ∀ (fuel : Nat) (msg : List Nat), 0 < msg.length → msg.length ≤ fuel →
      ∃ fr, (chunkFramesAux C fuel msg).getLast? = some fr ∧
        fr.payloadType = (if C ∣ msg.length then PAYLOAD_ADD else PAYLOAD_LAST) := by
  intro fuel
  induction fuel with
  | zero => intro msg hpos hm; omega
  | succ fuel ih =>
    intro msg hpos hm
    match msg with
    | [] => simp at hpos
    | b :: bs =>
      by_cases hlt : (b :: bs).length < C
      · have hndvd : ¬ C ∣ (b :: bs).length := by
          intro hdvd
          have := Nat.le_of_dvd hpos hdvd
          omega
        refine ⟨⟨PAYLOAD_LAST, 0, b :: bs⟩, ?_, ?_⟩
        · rw [chunkFramesAux_cons_lt C fuel b bs hlt]
          rfl
        · have hndvd2 : ¬ C ∣ bs.length + 1 := by simpa using hndvd
          simp [if_neg hndvd2]
      · have hC2 : C ≤ (b :: bs).length := Nat.le_of_not_lt hlt
        have hdrop : ((b :: bs).drop C).length ≤ fuel := by
          simp only [List.length_drop, List.length_cons]
          simp only [List.length_cons] at hm
          omega
        by_cases hzero : ((b :: bs).drop C).length = 0
        · -- the message length is exactly C: the final chunk is PAYLOAD_ADD
          have hlen : (b :: bs).length = C := by
            simp only [List.length_drop] at hzero
            omega
          have hdvd : C ∣ (b :: bs).length := hlen ▸ dvd_refl C
          have hnil : (b :: bs).drop C = [] := List.eq_nil_of_length_eq_zero hzero
          refine ⟨⟨PAYLOAD_ADD, 0, (b :: bs).take C⟩, ?_, ?_⟩
          · rw [chunkFramesAux_cons_ge C fuel b bs hlt, hnil, chunkFramesAux_nil]
            rfl
          · have hdvd2 : C ∣ bs.length + 1 := by simpa using hdvd
            simp [if_pos hdvd2]
        · obtain ⟨fr, hlast, hty⟩ := ih _ (Nat.pos_of_ne_zero hzero) hdrop
          have hiff : (C ∣ ((b :: bs).drop C).length) ↔ (C ∣ (b :: bs).length) := by
            simp only [List.length_drop]
            constructor
            · intro h
              have he : (b :: bs).length = ((b :: bs).length - C) + C := by omega
              rw [he]
              exact Nat.dvd_add h (dvd_refl C)
            · intro h
              exact Nat.dvd_sub' h (dvd_refl C)
          refine ⟨fr, ?_, ?_⟩
          · rw [chunkFramesAux_cons_ge C fuel b bs hlt]
            rcases heq : chunkFramesAux C fuel ((b :: bs).drop C) with _ | ⟨r, rs⟩
            · rw [heq] at hlast; simp at hlast
            · rw [heq] at hlast
              rw [List.getLast?_cons_cons]
              exact hlast
          · rw [hty]
            by_cases hd : C ∣ (b :: bs).length
            · rw [if_pos hd, if_pos (hiff.mpr hd)]
            · rw [if_neg hd, if_neg (fun hc => hd (hiff.mp hc))]

theorem uploadLoop_all_ok (device : Device) (hdev : ∀ f, (device f).2 = none) :
    ∀ cs : List UploadChunk,
      (uploadLoop device cs).1 = cs.map chunkFrame ∧ (uploadLoop device cs).2 = .ok () := by
  intro cs
  induction cs with
  | nil => exact ⟨rfl, rfl⟩
  | cons c cs ih =>
    have h2 := hdev (chunkFrame c)
    rcases hd : device (chunkFrame c) with ⟨resp, e⟩
    rw [hd] at h2
    simp only at h2
    subst h2
    simp only [uploadLoop, hd, List.map_cons]
    exact ⟨by rw [ih.1], ih.2⟩

/-! ## Claim C1: chunking of the Uploading phase -/

/-- C1 (amended): for a non-empty upload payload of length `L` and chunk
size `C > 0`, the Uploading phase of `Sign` produces exactly `ceil(L/C)`
chunks, sent in order (their chunks concatenate back to the payload, and
with an error-free transport the loop sends exactly those frames); every
chunk except possibly the last has length exactly `C`; every chunk before
the last carries `PAYLOAD_ADD` with `p2 = 0`; but the final chunk carries
`PAYLOAD_LAST` exactly when `L` is NOT a multiple of `C` — when `L` is an
exact positive multiple of `C` the final chunk is sent as `PAYLOAD_ADD`. -/
theorem c1_upload_chunking (C : Nat) (msg : List Nat) (device : Device)
    (hC : 0 < C) (hL : 0 < msg.length) :
    (chunkFrames C msg).length = (msg.length + C - 1) / C ∧
    (∀ fr ∈ (chunkFrames C msg).dropLast,
      fr.payloadType = PAYLOAD_ADD ∧ fr.p2 = 0 ∧ fr.chunk.length = C) ∧
    (∀ fr ∈ chunkFrames C msg, fr.p2 = 0) ∧
    ((chunkFrames C msg).map (fun fr => fr.chunk)).flatten = msg ∧
    (∃ fr, (chunkFrames C msg).getLast? = some fr ∧
      fr.payloadType = (if C ∣ msg.length then PAYLOAD_ADD else PAYLOAD_LAST)) ∧
    ((∀ f, (device f).2 = none) →
      (uploadLoop device (chunkFrames C msg)).1 = (chunkFrames C msg).map chunkFrame) :=
  ⟨chunkFramesAux_length C hC msg.length msg le_rfl,
    chunkFramesAux_dropLast C hC msg.length msg le_rfl,
    chunkFramesAux_p2 C msg.length msg,
    chunkFramesAux_join C hC msg.length msg le_rfl,
    chunkFramesAux_getLast C hC msg.length msg hL le_rfl,
    fun hdev => (uploadLoop_all_ok device hdev _).1⟩

/-- A transport double that accepts every frame with a bare success
status. -/
def devAllOk : Device := fun _ => ([0x90, 0x00], none)

theorem c1_upload_chunking_witness :
    0 < CHUNK_SIZE ∧ 0 < ([1, 2, 3] : List Nat).length ∧
    (chunkFrames CHUNK_SIZE [1, 2, 3]).length =
      (([1, 2, 3] : List Nat).length + CHUNK_SIZE - 1) / CHUNK_SIZE :=
  ⟨by decide, by decide,
    (c1_upload_chunking CHUNK_SIZE [1, 2, 3] devAllOk (by decide) (by decide)).1⟩

set_option maxRecDepth 4000 in
/-- C1 as stated is false: a 250-byte payload with chunk size
`CHUNK_SIZE = 250` (an exact multiple) is sent as a single chunk tagged
`PAYLOAD_ADD`, not `PAYLOAD_LAST`. -/
theorem c1_counterexample :
    (chunkFrames CHUNK_SIZE (List.replicate 250 0)).map (fun fr => fr.payloadType) =
      [PAYLOAD_ADD] ∧ PAYLOAD_ADD ≠ PAYLOAD_LAST :=
  ⟨rfl, by decide⟩

/-! ## Claim C2: frame layout -/

/-- Setting `message[4] = v` on a five-byte header with a payload appended. -/
theorem set4_cons5 (a b c d e v : Nat) (t : List Nat) :
    (a :: b :: c :: d :: e :: t).set 4 v = a :: b :: c :: d :: v :: t := rfl

theorem getPubKeyFrame_eq (p1 : Nat) (s1 s2 s3 : List Nat) :
    getPubKeyFrame p1 s1 s2 s3 =
      [CLA, INS_GET_ADDR, p1, 0, (s1 ++ s2 ++ s3).length % 256] ++ (s1 ++ s2 ++ s3) := by
  simp only [getPubKeyFrame, List.cons_append, List.nil_append, set4_cons5,
    List.length_cons, List.length_append]
  have h : s1.length + s2.length + s3.length + 1 + 1 + 1 + 1 + 1 - 5 =
      s1.length + s2.length + s3.length := by omega
  rw [h]

/-- C2 (amended): every command frame except the `SIGN_HASH` frame is a
5-byte header followed by the payload, with the 5th byte equal to the
payload length (for payloads of at most 255 bytes) and total length
`5 + len(payload)`.  The per-path `SIGN_HASH` frame built by
`SignAndCollect` is the exception: its header is 4 bytes and carries no
length byte at all, so its total length is `4 + len(pathBuf)`. -/
theorem c2_frame_layout (p1 : Nat) (serializedHRP serializedChainID serializedPath : List Nat)
    (spB pathBuf : List Nat) (ch : UploadChunk)
    (hpk : (serializedHRP ++ serializedChainID ++ serializedPath).length ≤ 255)
    (hsp : spB.length ≤ 255) (hty : ch.payloadType ≤ 255) (hp2 : ch.p2 ≤ 255)
    (hch : ch.chunk.length ≤ 255) :
    (getVersionFrame.length = 5 ∧ getVersionFrame.getD 4 0 = (getVersionFrame.drop 5).length) ∧
    (getPubKeyFrame p1 serializedHRP serializedChainID serializedPath =
        [CLA, INS_GET_ADDR, p1, 0, (serializedHRP ++ serializedChainID ++ serializedPath).length]
          ++ (serializedHRP ++ serializedChainID ++ serializedPath) ∧
      (getPubKeyFrame p1 serializedHRP serializedChainID serializedPath).length =
        5 + (serializedHRP ++ serializedChainID ++ serializedPath).length) ∧
    (signInitFrame spB = [CLA, INS_SIGN, PAYLOAD_INIT, FIRST_MESSAGE, spB.length] ++ spB ∧
      (signInitFrame spB).length = 5 + spB.length) ∧
    (chunkFrame ch = [CLA, INS_SIGN, ch.payloadType, ch.p2, ch.chunk.length] ++ ch.chunk ∧
      (chunkFrame ch).length = 5 + ch.chunk.length) ∧
    (signHashFrame p1 pathBuf).length = 4 + pathBuf.length := by
  have hmod : (serializedHRP ++ serializedChainID ++ serializedPath).length % 256 =
      (serializedHRP ++ serializedChainID ++ serializedPath).length :=
    Nat.mod_eq_of_lt (by omega)
  have hspm : spB.length % 256 = spB.length := Nat.mod_eq_of_lt (by omega)
  have htym : ch.payloadType % 256 = ch.payloadType := Nat.mod_eq_of_lt (by omega)
  have hp2m : ch.p2 % 256 = ch.p2 := Nat.mod_eq_of_lt (by omega)
  have hchm : ch.chunk.length % 256 = ch.chunk.length := Nat.mod_eq_of_lt (by omega)
  refine ⟨⟨rfl, rfl⟩, ⟨?_, ?_⟩, ⟨?_, ?_⟩, ⟨?_, ?_⟩, ?_⟩
  · rw [getPubKeyFrame_eq, hmod]
  · rw [getPubKeyFrame_eq]
    simp [List.length_append]
    omega
  · simp only [signInitFrame, hspm]
  · simp [signInitFrame, List.length_append]
    omega
  · simp only [chunkFrame, htym, hp2m, hchm]
  · simp [chunkFrame, List.length_append]
    omega
  · simp [signHashFrame, List.length_append]
    omega

/-- C2 as stated is false for the `SIGN_HASH` frames: with a one-byte
serialized path suffix `[5]`, the frame is 5 bytes long (4-byte header
plus payload), not `5 + 1`; read as a 5-byte header followed by a payload,
its 5th byte is `5` while the remaining payload is empty. -/
theorem c2_counterexample :
    (signHashFrame LAST_MESSAGE [5]).length = 5 ∧
    (signHashFrame LAST_MESSAGE [5]).length ≠ 5 + [(5 : Nat)].length ∧
    (signHashFrame LAST_MESSAGE [5]).getD 4 0 = 5 ∧
    ((signHashFrame LAST_MESSAGE [5]).drop 5).length = 0 ∧ (5 : Nat) ≠ 0 := by
  refine ⟨rfl, by decide, rfl, rfl, by decide⟩

theorem c2_frame_layout_witness :
    getVersionFrame.length = 5 ∧ (signHashFrame LAST_MESSAGE [9, 9]).length = 4 + 2 :=
  ⟨(c2_frame_layout 0 [1] [2] [3] [4] [9, 9] ⟨PAYLOAD_ADD, 0, [7]⟩
      (by decide) (by decide) (by decide) (by decide) (by decide)).1.1,
    (c2_frame_layout 0 [1] [2] [3] [4] [9, 9] ⟨PAYLOAD_ADD, 0, [7]⟩
      (by decide) (by decide) (by decide) (by decide) (by decide)).2.2.2.2⟩

/-! ## Claim C5: path deduplication -/

/-- Spec-side definition, following the spec's words: the deduplicated
list preserving first-occurrence order keeps each string's first
occurrence and drops every later exact duplicate.  (Fuel-structured for
executability; the fuel `l.length` always suffices because the filtered
tail is never longer than the tail.) -/
def dedupFirstOccurrenceSpecAux : Nat → List String → List String
  | 0, _ => []
  | _ + 1, [] => []
  | fuel + 1, x :: xs => x :: dedupFirstOccurrenceSpecAux fuel (xs.filter (fun y => y != x))

def dedupFirstOccurrenceSpec (l : List String) : List String :=
  dedupFirstOccurrenceSpecAux l.length l

theorem dedupFirstOccurrenceSpecAux_fuel :
    ∀ (f1 f2 : Nat) (l : List String), l.length ≤ f1 → l.length ≤ f2 →
      dedupFirstOccurrenceSpecAux f1 l = dedupFirstOccurrenceSpecAux f2 l := by
  intro f1
  induction f1 with
  | zero =>
    intro f2 l h1 h2
    have hnil : l = [] := List.eq_nil_of_length_eq_zero (Nat.le_zero.mp h1)
    subst hnil
    cases f2 <;> rfl
  | succ f1 ih =>
    intro f2 l h1 h2
    match l with
    | [] => cases f2 <;> rfl
    | x :: xs =>
      match f2 with
      | 0 => simp at h2
      | f2 + 1 =>
        simp only [dedupFirstOccurrenceSpecAux]
        congr 1
        exact ih f2 _ (le_trans (List.length_filter_le _ _) (by simpa using h1))
          (le_trans (List.length_filter_le _ _) (by simpa using h2))

theorem removeDuplicatesAux_congr :
    ∀ (l seen1 seen2 : List String), (∀ a, a ∈ seen1 ↔ a ∈ seen2) →
      removeDuplicatesAux seen1 l = removeDuplicatesAux seen2 l := by
  intro l
  induction l with
  | nil => intro seen1 seen2 h; rfl
  | cons x xs ih =>
    intro seen1 seen2 h
    by_cases hx : x ∈ seen1
    · simp only [removeDuplicatesAux, if_pos hx, if_pos ((h x).mp hx)]
      exact ih seen1 seen2 h
    · simp only [removeDuplicatesAux, if_neg hx, if_neg (fun hc => hx ((h x).mpr hc))]
      congr 1
      exact ih (x :: seen1) (x :: seen2) (by intro a; simp [List.mem_cons, h a])

theorem removeDuplicatesAux_filter :
    ∀ (l seen : List String) (x : String),
      removeDuplicatesAux (x :: seen) l =
        removeDuplicatesAux seen (l.filter (fun y => y != x)) := by
  intro l
  induction l with
  | nil => intro seen x; rfl
  | cons y ys ih =>
    intro seen x
    by_cases hyx : y = x
    · subst hyx
      have hf : (y != y) = false := by simp
      have hmem : y ∈ y :: seen := List.mem_cons_self y seen
      simp only [removeDuplicatesAux, if_pos hmem, List.filter_cons, hf,
        Bool.false_eq_true, if_false]
      exact ih seen y
    · have hf : (y != x) = true := by simp [hyx]
      by_cases hys : y ∈ seen
      · have hmem : y ∈ x :: seen := List.mem_cons_of_mem x hys
        simp only [removeDuplicatesAux, if_pos hmem, List.filter_cons, hf, if_true]
        simp only [removeDuplicatesAux, if_pos hys]
        exact ih seen x
      · have hmem : y ∉ x :: seen := by simp [List.mem_cons, hyx, hys]
        simp only [removeDuplicatesAux, if_neg hmem, List.filter_cons, hf, if_true]
        simp only [removeDuplicatesAux, if_neg hys]
        congr 1
        have hswap : removeDuplicatesAux (y :: x :: seen) ys =
            removeDuplicatesAux (x :: y :: seen) ys := by
          apply removeDuplicatesAux_congr
          intro a
          simp only [List.mem_cons]
          tauto
        rw [hswap, ih (y :: seen) x]

theorem removeDuplicates_eq_dedupSpec (l : List String) :
    removeDuplicates l = dedupFirstOccurrenceSpec l := by
  suffices h : ∀ (n : Nat) (l : List String), l.length ≤ n →
      removeDuplicates l = dedupFirstOccurrenceSpec l from h l.length l le_rfl
  intro n
  induction n with
  | zero =>
    intro l h
    have hnil : l = [] := List.eq_nil_of_length_eq_zero (Nat.le_zero.mp h)
    subst hnil; rfl
  | succ n ih =>
    intro l h
    match l with
    | [] => rfl
    | x :: xs =>
      have hlen : (xs.filter (fun y => y != x)).length ≤ n :=
        le_trans (List.length_filter_le _ _) (by simpa using h)
      have hrec := ih (xs.filter (fun y => y != x)) hlen
      show removeDuplicatesAux [] (x :: xs) =
        dedupFirstOccurrenceSpecAux (x :: xs).length (x :: xs)
      have h1 : removeDuplicatesAux [] (x :: xs) = x :: removeDuplicatesAux [x] xs := by
        simp [removeDuplicatesAux]
      have h2 : dedupFirstOccurrenceSpecAux (x :: xs).length (x :: xs) =
          x :: dedupFirstOccurrenceSpecAux xs.length (xs.filter (fun y => y != x)) := by
        simp only [List.length_cons, dedupFirstOccurrenceSpecAux]
      rw [h1, h2, removeDuplicatesAux_filter xs [] x,
        dedupFirstOccurrenceSpecAux_fuel xs.length (xs.filter (fun y => y != x)).length _
          (List.length_filter_le _ _) le_rfl]
      exact congrArg (fun t => x :: t) hrec

/-- C5 (amended): the path list `Sign` uses is the first-occurrence-order
deduplication of `signingPaths ++ changePaths` only when `changePaths` is
non-nil; when `changePaths` is nil no deduplication happens at all, and
duplicates inside `signingPaths` are kept. -/
theorem c5_effective_paths (signingPaths cp : List String) :
    effectivePaths signingPaths (some cp) = dedupFirstOccurrenceSpec (signingPaths ++ cp) ∧
    effectivePaths signingPaths none = signingPaths :=
  ⟨removeDuplicates_eq_dedupSpec (signingPaths ++ cp), rfl⟩

/-- C5 as stated is false: with `signingPaths = ["a", "a"]` and nil
`changePaths`, `Sign` uses `["a", "a"]` unchanged, not the deduplicated
union `["a"]`. -/
theorem c5_counterexample :
    effectivePaths ["a", "a"] none = ["a", "a"] ∧
    dedupFirstOccurrenceSpec (["a", "a"] ++ []) = ["a"] ∧
    effectivePaths ["a", "a"] none ≠ dedupFirstOccurrenceSpec (["a", "a"] ++ []) :=
  ⟨rfl, rfl, by decide⟩

/-! ## Claim C10: the path-count byte -/

theorem pathSuffixBytes_isSome (sps : Serializer) :
    ∀ path : List String, (∀ p ∈ path, ∃ b, sps p = Except.ok b) →
      ∃ buf, pathSuffixBytes sps path = some buf := by
  intro path
  induction path with
  | nil => intro h; exact ⟨[], rfl⟩
  | cons q qs ih =>
    intro h
    obtain ⟨b, hb⟩ := h q (List.mem_cons_self q qs)
    obtain ⟨buf, hbuf⟩ := ih (fun p hp => h p (List.mem_cons_of_mem q hp))
    exact ⟨b ++ buf, by simp [pathSuffixBytes, hb, hbuf]⟩

/-- C10: when every suffix serializes, `ConcatMessageAndChangePath` writes
the path count as a single byte `len(path) % 256`: the count byte equals
the list length exactly for lists of at most 255 entries, and for longer
lists the byte silently wraps modulo 256 while the function still returns
a payload rather than failing. -/
theorem c10_count_byte (sps : Serializer) (message : List Nat) (path : List String)
    (h : ∀ p ∈ path, ∃ b, sps p = Except.ok b) :
    (concatMessageAndChangePath sps message path).head? = some (path.length % 256) ∧
    (path.length ≤ 255 →
      (concatMessageAndChangePath sps message path).head? = some path.length) ∧
    concatMessageAndChangePath sps message path ≠ [] := by
  obtain ⟨buf, hbuf⟩ := pathSuffixBytes_isSome sps path h
  refine ⟨by simp [concatMessageAndChangePath, hbuf], ?_,
    by simp [concatMessageAndChangePath, hbuf]⟩
  intro hle
  have hm : path.length % 256 = path.length := Nat.mod_eq_of_lt (by omega)
  simp [concatMessageAndChangePath, hbuf, hm]

/-- A serializer double that accepts every path with buffer `[0]`. -/
def okSerializer : Serializer := fun _ => Except.ok [0]

theorem c10_count_byte_witness :
    (concatMessageAndChangePath okSerializer [] ["a"]).head? = some 1 :=
  (c10_count_byte okSerializer [] ["a"] (fun _ _ => ⟨[0], rfl⟩)).2.1 (by decide)

/-! ## Claim C8: swallowed serialization failures -/

theorem pathSuffixBytes_none (sps : Serializer) :
    ∀ (path : List String) (p e : String), p ∈ path → sps p = Except.error e →
      pathSuffixBytes sps path = none := by
  intro path
  induction path with
  | nil => intro p e hp _; simp at hp
  | cons q qs ih =>
    intro p e hp hfail
    rcases List.mem_cons.mp hp with h1 | h2
    · subst h1
      simp [pathSuffixBytes, hfail]
    · cases hq : sps q with
      | error e2 => simp [pathSuffixBytes, hq]
      | ok b => simp [pathSuffixBytes, hq, ih p e h2 hfail]

/-- When the upload payload is empty, `Sign` reaches the collection phase
having sent only the init frame. -/
theorem sign_collect_phase (sp sps : Serializer) (device : Device) (prefixPath : String)
    (signingPaths : List String) (message : List Nat) (changePaths : Option (List String))
    (spB r0 : List Nat)
    (hsp : sp prefixPath = Except.ok spB)
    (hinit : device (signInitFrame spB) = (r0, none))
    (hmsg : concatMessageAndChangePath sps message (effectivePaths signingPaths changePaths)
      = []) :
    sign sp sps device prefixPath signingPaths message changePaths =
      (signInitFrame spB :: signAndCollectFrames sps device signingPaths,
        (signAndCollectResult sps device signingPaths []).mapVal
          (fun m => ⟨none, m⟩)) := by
  simp only [sign, hsp, hinit, hmsg]
  simp [chunkFrames, chunkFramesAux, uploadLoop, signAndCollect]

/-- C8: if any effective path suffix fails to serialize,
`ConcatMessageAndChangePath` returns nil instead of an error, `Sign`
sends zero upload chunks (in particular no `PAYLOAD_LAST` frame), and
proceeds straight to signature collection with the serialization failure
never surfaced. -/
theorem c8_serialization_failure_swallowed (sp sps : Serializer) (device : Device)
    (prefixPath : String) (signingPaths : List String) (message : List Nat)
    (changePaths : Option (List String)) (spB r0 : List Nat) (p e : String)
    (hsp : sp prefixPath = Except.ok spB)
    (hinit : device (signInitFrame spB) = (r0, none))
    (hp : p ∈ effectivePaths signingPaths changePaths)
    (hfail : sps p = Except.error e) :
    concatMessageAndChangePath sps message (effectivePaths signingPaths changePaths) = [] ∧
    chunkFrames CHUNK_SIZE
      (concatMessageAndChangePath sps message (effectivePaths signingPaths changePaths))
      = [] ∧
    sign sp sps device prefixPath signingPaths message changePaths =
      (signInitFrame spB :: signAndCollectFrames sps device signingPaths,
        (signAndCollectResult sps device signingPaths []).mapVal
          (fun m => ⟨none, m⟩)) := by
  have hmsg : concatMessageAndChangePath sps message
      (effectivePaths signingPaths changePaths) = [] := by
    simp [concatMessageAndChangePath, pathSuffixBytes_none sps _ p e hp hfail]
  refine ⟨hmsg, by rw [hmsg]; rfl, ?_⟩
  exact sign_collect_phase sp sps device prefixPath signingPaths message changePaths
    spB r0 hsp hinit hmsg

/-- A serializer double that rejects the path `bad` and accepts all
others. -/
def failSerializer : Serializer := fun t =>
  if t = "bad" then Except.error "boom" else Except.ok [0]

theorem c8_witness :
    sign okSerializer failSerializer devAllOk "m" ["bad"] [] none =
      (signInitFrame [0] :: signAndCollectFrames failSerializer devAllOk ["bad"],
        (signAndCollectResult failSerializer devAllOk ["bad"] []).mapVal
          (fun m => ⟨none, m⟩)) :=
  (c8_serialization_failure_swallowed okSerializer failSerializer devAllOk "m" ["bad"] []
    none [0] [0x90, 0x00] "bad" "boom" rfl rfl (by decide) rfl).2.2

/-! ## Claims C3 and C4: the Collecting phase -/

/-- The round trip for `suffix` (with `rest` still to process) succeeded:
the suffix serialized, the exchange returned without a transport error,
the response holds at least the two status bytes, and the status is
`NoErrors`. -/
def roundTripOk (sps : Serializer) (device : Device) (suffix : String)
    (rest : List String) : Prop :=
  ∃ pathBuf response, sps suffix = Except.ok pathBuf ∧
    device (signHashFrame (collectP1 rest) pathBuf) = (response, none) ∧
    2 ≤ response.length ∧ statusOf response = NoErrors

/-- The round trip for `suffix` produced a recordable signature: success
status AND a body beyond the two status bytes. -/
def goodRoundTrip (sps : Serializer) (device : Device) (suffix : String)
    (rest : List String) : Prop :=
  ∃ pathBuf response, sps suffix = Except.ok pathBuf ∧
    device (signHashFrame (collectP1 rest) pathBuf) = (response, none) ∧
    2 < response.length ∧ statusOf response = NoErrors

theorem cons_decomp_iff {α : Type} (G : List α → Prop) (q k : α) (qs : List α) :
    (∃ pre rest, q :: qs = pre ++ k :: rest ∧ G rest) ↔
      ((k = q ∧ G qs) ∨ ∃ pre rest, qs = pre ++ k :: rest ∧ G rest) := by
  constructor
  · rintro ⟨pre, rest, heq, hG⟩
    cases pre with
    | nil =>
      simp only [List.nil_append, List.cons.injEq] at heq
      exact Or.inl ⟨heq.1.symm, by rw [heq.2]; exact hG⟩
    | cons a pre2 =>
      simp only [List.cons_append, List.cons.injEq] at heq
      exact Or.inr ⟨pre2, rest, heq.2, hG⟩
  · rintro (⟨hk, hG⟩ | ⟨pre, rest, heq, hG⟩)
    · exact ⟨[], qs, by simp [hk], hG⟩
    · exact ⟨q :: pre, rest, by rw [heq, List.cons_append], hG⟩

theorem mem_mapKeys_mapInsert (k a : String) (v : List Nat) :
    ∀ m, a ∈ mapKeys (mapInsert k v m) ↔ a = k ∨ a ∈ mapKeys m := by
  intro m
  induction m with
  | nil => simp [mapInsert, mapKeys]
  | cons kv rest ih =>
    obtain ⟨k2, v2⟩ := kv
    by_cases hk : k2 = k
    · subst hk
      have hstep : mapInsert k2 v ((k2, v2) :: rest) = (k2, v) :: rest := by
        simp [mapInsert]
      rw [hstep]
      simp only [mapKeys, List.map_cons, List.mem_cons]
      tauto
    · have hstep : mapInsert k v ((k2, v2) :: rest) = (k2, v2) :: mapInsert k v rest := by
        simp [mapInsert, hk]
      rw [hstep]
      simp only [mapKeys, List.map_cons, List.mem_cons]
      simp only [mapKeys] at ih
      rw [ih]
      tauto

theorem mapKeys_nodup_mapInsert (k : String) (v : List Nat) :
    ∀ m, (mapKeys m).Nodup → (mapKeys (mapInsert k v m)).Nodup := by
  intro m
  induction m with
  | nil => intro _; simp [mapInsert, mapKeys]
  | cons kv rest ih =>
    obtain ⟨k2, v2⟩ := kv
    intro hnd
    simp only [mapKeys, List.map_cons, List.nodup_cons] at hnd
    by_cases hk : k2 = k
    · subst hk
      have hstep : mapInsert k2 v ((k2, v2) :: rest) = (k2, v) :: rest := by
        simp [mapInsert]
      rw [hstep]
      simp only [mapKeys, List.map_cons, List.nodup_cons]
      exact hnd
    · have hstep : mapInsert k v ((k2, v2) :: rest) = (k2, v2) :: mapInsert k v rest := by
        simp [mapInsert, hk]
      rw [hstep]
      simp only [mapKeys, List.map_cons, List.nodup_cons]
      refine ⟨?_, ih hnd.2⟩
      intro hc
      rcases (mem_mapKeys_mapInsert k k2 v rest).mp hc with h1 | h2
      · exact hk h1
      · exact hnd.1 h2

theorem signAndCollectResult_ok_roundTrips (sps : Serializer) (device : Device) :
    ∀ (paths : List String) (acc m : List (String × List Nat)),
      signAndCollectResult sps device paths acc = .ok m →
      ∀ pre p rest, paths = pre ++ p :: rest → roundTripOk sps device p rest := by
  intro paths
  induction paths with
  | nil =>
    intro acc m _ pre p rest heq
    exact absurd heq (by simp)
  | cons q qs ih =>
    intro acc m h pre p rest heq
    cases hs : sps q with
    | error e => simp [signAndCollectResult, hs] at h
    | ok pathBuf =>
      rcases hd : device (signHashFrame (collectP1 qs) pathBuf) with ⟨resp, e0⟩
      cases e0 with
      | some e => simp [signAndCollectResult, hs, hd] at h
      | none =>
        simp only [signAndCollectResult, hs, hd] at h
        by_cases hl : resp.length < 2
        · rw [if_pos hl] at h; exact absurd h (by simp)
        rw [if_neg hl] at h
        by_cases hst : statusOf resp = NoErrors
        case neg => rw [if_neg hst] at h; exact absurd h (by simp)
        rw [if_pos hst] at h
        cases pre with
        | nil =>
          simp only [List.nil_append, List.cons.injEq] at heq
          obtain ⟨hqp, hrest⟩ := heq
          subst hqp; subst hrest
          exact ⟨pathBuf, resp, hs, hd, Nat.le_of_not_lt hl, hst⟩
        | cons a pre2 =>
          simp only [List.cons_append, List.cons.injEq] at heq
          by_cases h2 : 2 < resp.length
          · rw [if_pos h2] at h
            exact ih _ _ h pre2 p rest heq.2
          · rw [if_neg h2] at h
            exact ih _ _ h pre2 p rest heq.2

theorem signAndCollectResult_ok_keys (sps : Serializer) (device : Device) :
    ∀ (paths : List String) (acc m : List (String × List Nat)),
      signAndCollectResult sps device paths acc = .ok m →
      ∀ k, (k ∈ mapKeys m ↔
        (k ∈ mapKeys acc ∨
          ∃ pre rest, paths = pre ++ k :: rest ∧ goodRoundTrip sps device k rest)) := by
  intro paths
  induction paths with
  | nil =>
    intro acc m h k
    simp only [signAndCollectResult] at h
    injection h with hacc
    subst hacc
    constructor
    · intro hk; exact Or.inl hk
    · rintro (hk | ⟨pre, rest, heq, _⟩)
      · exact hk
      · exact absurd heq (by simp)
  | cons q qs ih =>
    intro acc m h k
    cases hs : sps q with
    | error e => simp [signAndCollectResult, hs] at h
    | ok pathBuf =>
      rcases hd : device (signHashFrame (collectP1 qs) pathBuf) with ⟨resp, e0⟩
      cases e0 with
      | some e => simp [signAndCollectResult, hs, hd] at h
      | none =>
        simp only [signAndCollectResult, hs, hd] at h
        by_cases hl : resp.length < 2
        · rw [if_pos hl] at h; exact absurd h (by simp)
        rw [if_neg hl] at h
        by_cases hst : statusOf resp = NoErrors
        case neg => rw [if_neg hst] at h; exact absurd h (by simp)
        rw [if_pos hst] at h
        rw [cons_decomp_iff (fun rest => goodRoundTrip sps device k rest) q k qs]
        by_cases h2 : 2 < resp.length
        · rw [if_pos h2] at h
          have hrec := ih _ _ h k
          rw [mem_mapKeys_mapInsert] at hrec
          have hgood : goodRoundTrip sps device q qs := ⟨pathBuf, resp, hs, hd, h2, hst⟩
          rw [hrec]
          constructor
          · rintro ((hkq | hkacc) | hD)
            · exact Or.inr (Or.inl ⟨hkq, hkq ▸ hgood⟩)
            · exact Or.inl hkacc
            · exact Or.inr (Or.inr hD)
          · rintro (hkacc | (⟨hkq, _⟩ | hD))
            · exact Or.inl (Or.inr hkacc)
            · exact Or.inl (Or.inl hkq)
            · exact Or.inr hD
        · rw [if_neg h2] at h
          have hrec := ih _ _ h k
          have hngood : ¬ goodRoundTrip sps device q qs := by
            rintro ⟨buf2, resp2, hs2, hd2, hlen2, _⟩
            rw [hs] at hs2
            injection hs2 with hb
            subst hb
            rw [hd] at hd2
            injection hd2 with hr he
            subst hr
            exact h2 hlen2
          rw [hrec]
          constructor
          · rintro (hkacc | hD)
            · exact Or.inl hkacc
            · exact Or.inr (Or.inr hD)
          · rintro (hkacc | (⟨hkq, hg⟩ | hD))
            · exact Or.inl hkacc
            · exact absurd (hkq ▸ hg) hngood
            · exact Or.inr hD

theorem signAndCollectResult_ok_nodup (sps : Serializer) (device : Device) :
    ∀ (paths : List String) (acc m : List (String × List Nat)),
      (mapKeys acc).Nodup → signAndCollectResult sps device paths acc = .ok m →
      (mapKeys m).Nodup := by
  intro paths
  induction paths with
  | nil =>
    intro acc m hnd h
    simp only [signAndCollectResult] at h
    injection h with hacc
    exact hacc ▸ hnd
  | cons q qs ih =>
    intro acc m hnd h
    cases hs : sps q with
    | error e => simp [signAndCollectResult, hs] at h
    | ok pathBuf =>
      rcases hd : device (signHashFrame (collectP1 qs) pathBuf) with ⟨resp, e0⟩
      cases e0 with
      | some e => simp [signAndCollectResult, hs, hd] at h
      | none =>
        simp only [signAndCollectResult, hs, hd] at h
        by_cases hl : resp.length < 2
        · rw [if_pos hl] at h; exact absurd h (by simp)
        rw [if_neg hl] at h
        by_cases hst : statusOf resp = NoErrors
        case neg => rw [if_neg hst] at h; exact absurd h (by simp)
        rw [if_pos hst] at h
        by_cases h2 : 2 < resp.length
        · rw [if_pos h2] at h
          exact ih _ _ (mapKeys_nodup_mapInsert q _ acc hnd) h
        · rw [if_neg h2] at h
          exact ih _ _ hnd h

/-- A successful `Sign` run carries a successful collection run. -/
theorem sign_ok_inv (sp sps : Serializer) (device : Device) (prefixPath : String)
    (signingPaths : List String) (message : List Nat) (changePaths : Option (List String))
    (r : ResponseSign)
    (h : (sign sp sps device prefixPath signingPaths message changePaths).2 = .ok r) :
    signAndCollectResult sps device signingPaths [] = .ok r.signatures ∧
      r.errorMessage = none := by
  cases hsp : sp prefixPath with
  | error e => simp [sign, hsp] at h
  | ok spB =>
    rcases hd : device (signInitFrame spB) with ⟨resp0, e0⟩
    cases e0 with
    | some e => simp [sign, hsp, hd] at h
    | none =>
      cases hup : (uploadLoop device (chunkFrames CHUNK_SIZE
          (concatMessageAndChangePath sps message
            (effectivePaths signingPaths changePaths)))).2 with
      | err e => simp [sign, hsp, hd, hup] at h
      | crash => simp [sign, hsp, hd, hup] at h
      | ok u =>
        simp only [sign, hsp, hd, hup, signAndCollect] at h
        cases hres : signAndCollectResult sps device signingPaths [] with
        | ok m =>
          rw [hres] at h
          simp only [GoResult.mapVal] at h
          injection h with h2
          rw [← h2]
          exact ⟨rfl, rfl⟩
        | err e => rw [hres] at h; simp [GoResult.mapVal] at h
        | crash => rw [hres] at h; simp [GoResult.mapVal] at h

/-- C4: no partial result on failure.  First part: whenever `Sign`
returns a non-nil `ResponseSign`, every per-path round trip of the
Collecting phase completed with the `NoErrors` status — contrapositively,
a non-success status at any reached path means no `ResponseSign` is ever
returned.  Second part: a round trip whose response carries a non-success
status makes the collection loop return the `signing hash failed` error
immediately, discarding the accumulated signatures `acc`. -/
theorem c4_no_partial_on_failure (sp sps : Serializer) (device : Device)
    (prefixPath : String) (signingPaths : List String) (message : List Nat)
    (changePaths : Option (List String)) :
    (∀ r, (sign sp sps device prefixPath signingPaths message changePaths).2 = .ok r →
      ∀ pre p rest, signingPaths = pre ++ p :: rest → roundTripOk sps device p rest) ∧
    (∀ suffix rest acc pathBuf resp, sps suffix = Except.ok pathBuf →
      device (signHashFrame (collectP1 rest) pathBuf) = (resp, none) →
      2 ≤ resp.length → statusOf resp ≠ NoErrors →
      signAndCollectResult sps device (suffix :: rest) acc = .err "signing hash failed") := by
  constructor
  · intro r h pre p rest heq
    exact signAndCollectResult_ok_roundTrips sps device signingPaths [] r.signatures
      (sign_ok_inv sp sps device prefixPath signingPaths message changePaths r h).1
      pre p rest heq
  · intro suffix rest acc pathBuf resp hs hd hlen hst
    simp only [signAndCollectResult, hs, hd]
    rw [if_neg (Nat.not_lt.mpr hlen), if_neg hst]

/-- A transport double that answers `SIGN_HASH` frames with a one-byte
signature body and everything else with a bare success status. -/
def goodDevice : Device := fun frame =>
  if frame.getD 1 0 = INS_SIGN_HASH then ([7, 0x90, 0x00], none) else ([0x90, 0x00], none)

/-- A transport double that reports the status `0x6985` on every frame. -/
def badStatusDevice : Device := fun _ => ([0x69, 0x85], none)

theorem c4_no_partial_on_failure_witness :
    roundTripOk okSerializer goodDevice "a" [] ∧
    signAndCollectResult okSerializer badStatusDevice ["b"] [] =
      .err "signing hash failed" :=
  ⟨(c4_no_partial_on_failure okSerializer okSerializer goodDevice "m" ["a"] [] none).1
      ⟨none, [("a", [7])]⟩ rfl [] "a" [] rfl,
    (c4_no_partial_on_failure okSerializer okSerializer badStatusDevice "m" ["b"] [] none).2
      "b" [] [] [0] [0x69, 0x85] rfl rfl (by decide) (by decide)⟩

/-- C3 (amended): whenever `Sign` completes successfully, the signature
map has no duplicate keys, and a path string is a key exactly when it
occurs in the original `signingPaths` (never a changePaths-only path) at
a position whose round trip returned the success status together with a
non-empty body.  A success status whose response carries nothing beyond
the two status bytes records no entry and is silently skipped, so the map
can have fewer entries than `signingPaths`. -/
theorem c3_signatures_amended (sp sps : Serializer) (device : Device) (prefixPath : String)
    (signingPaths : List String) (message : List Nat) (changePaths : Option (List String))
    (r : ResponseSign) (k : String)
    (h : (sign sp sps device prefixPath signingPaths message changePaths).2 = .ok r) :
    (mapKeys r.signatures).Nodup ∧
    (k ∈ mapKeys r.signatures ↔
      ∃ pre rest, signingPaths = pre ++ k :: rest ∧ goodRoundTrip sps device k rest) := by
  have hres := (sign_ok_inv sp sps device prefixPath signingPaths message changePaths r h).1
  refine ⟨signAndCollectResult_ok_nodup sps device signingPaths [] r.signatures
    (by simp [mapKeys]) hres, ?_⟩
  have hk := signAndCollectResult_ok_keys sps device signingPaths [] r.signatures hres k
  simpa [mapKeys] using hk

theorem c3_signatures_amended_witness :
    (mapKeys [("a", ([7] : List Nat))]).Nodup ∧
    ("a" ∈ mapKeys [("a", ([7] : List Nat))] ↔
      ∃ pre rest, ["a"] = pre ++ "a" :: rest ∧
        goodRoundTrip okSerializer goodDevice "a" rest) :=
  c3_signatures_amended okSerializer okSerializer goodDevice "m" ["a"] [] none
    ⟨none, [("a", [7])]⟩ "a" rfl

/-- A transport double that always answers with a bare success status and
no body. -/
def emptyBodyDevice : Device := fun _ => ([0x90, 0x00], none)

/-- C3 as stated is false: with one signing path whose round trip returns
the success status `0x9000` and an empty body, `Sign` completes
successfully, yet the signatures map is empty rather than holding exactly
one entry keyed by that path. -/
theorem c3_counterexample :
    (sign okSerializer okSerializer emptyBodyDevice "m" ["a"] [] none).2 =
      .ok ⟨none, []⟩ ∧ mapKeys ([] : List (String × List Nat)) ≠ ["a"] :=
  ⟨rfl, by decide⟩

/-! ## Claim C7: CheckVersion ignores its argument -/

/-- C7: the result of the `CheckVersion` method does not depend on the
`VersionInfo` argument passed to it: for any two argument values over the
same device exchange behavior the result is identical, because the method
re-fetches the version from the device and compares that fetched value
against the hardcoded minimum `VersionInfo{0, 0, 6, 5}`. -/
theorem c7_checkversion_ignores_argument
    (checkVersionFn : VersionInfo → VersionInfo → Option String) (device : Device)
    (ver1 ver2 v : VersionInfo)
    (hv : getVersion device = Except.ok v) :
    checkVersionMethod checkVersionFn device ver1 =
      checkVersionMethod checkVersionFn device ver2 ∧
    checkVersionMethod checkVersionFn device ver1 = checkVersionFn v ⟨0, 0, 6, 5⟩ := by
  unfold checkVersionMethod
  rw [hv]
  exact ⟨rfl, rfl⟩

/-- A transport double that reports version bytes `0, 0, 6, 5`. -/
def versionDevice : Device := fun _ => ([0, 0, 6, 5], none)

theorem c7_checkversion_ignores_argument_witness :
    checkVersionMethod (fun _ _ => none) versionDevice ⟨0, 0, 0, 0⟩ =
      checkVersionMethod (fun _ _ => none) versionDevice ⟨9, 9, 9, 9⟩ :=
  (c7_checkversion_ignores_argument (fun _ _ => none) versionDevice ⟨0, 0, 0, 0⟩
    ⟨9, 9, 9, 9⟩ ⟨0, 0, 6, 5⟩ rfl).1

/-! ## Claim C6: GetPubKey response parsing -/

/-- The spec scenario response: `[0x21]`, 33 key bytes, 20 hash bytes and
the status `0x9000`. -/
def pubKeyResponse : List Nat :=
  0x21 :: (List.replicate 33 0xAA ++ (List.replicate 20 0xBB ++ [0x90, 0x00]))

set_option maxRecDepth 2000 in
/-- C6: on the spec's scenario response the code returns the 33-byte
public key but a 22-byte hash — `hash = response[publicKeyLen+1 :
len(response)]` keeps the two trailing status bytes, contradicting the
source's own layout comment `[publicKeyLen | publicKey | hash |
errorCode]` and the spec's 20-byte expectation. -/
theorem c6_hash_includes_status_bytes :
    getPubKey okSerializer okSerializer okSerializer (fun _ => (pubKeyResponse, none))
        "m/44/9000/0" false "avax" "testnet" =
      .ok (List.replicate 33 0xAA, List.replicate 20 0xBB ++ [0x90, 0x00]) ∧
    (List.replicate 20 0xBB ++ [0x90, 0x00]).length = 22 ∧ (22 : Nat) ≠ 20 :=
  ⟨rfl, by decide, by decide⟩

/-! ## Claim C9: the GetPubKey size guard -/

/-- C9 (amended): the minimum-size guard alone does not bound the
declared key length; the key slice is in range exactly when the declared
length also satisfies `response[0] ≤ 34 + len(hrp)`, and under that extra
bound parsing succeeds with the slices the source takes. -/
theorem c9_parse_in_bounds (hrp : String) (response : List Nat) (n : Nat)
    (hguard : 35 + hrp.length ≤ response.length)
    (hn : response.getD 0 0 = n)
    (hbound : n ≤ 34 + hrp.length) :
    n + 1 ≤ response.length ∧
    parsePubKeyResponse hrp response =
      .ok ((response.drop 1).take n, response.drop (n + 1)) := by
  refine ⟨by omega, ?_⟩
  simp only [parsePubKeyResponse, hn]
  rw [if_neg (by omega), if_neg (by omega)]

set_option maxRecDepth 2000 in
theorem c9_parse_in_bounds_witness :
    (33 : Nat) + 1 ≤ pubKeyResponse.length ∧
    parsePubKeyResponse "avax" pubKeyResponse =
      .ok ((pubKeyResponse.drop 1).take 33, pubKeyResponse.drop 34) :=
  c9_parse_in_bounds "avax" pubKeyResponse 33 (by decide) rfl (by decide)

/-- A guard-passing 35-byte response declaring a 255-byte key. -/
def overflowResponse : List Nat := 255 :: List.replicate 34 0

set_option maxRecDepth 2000 in
/-- C9 as stated is false: this response passes the
`len(response) >= 35 + len(hrp)` guard with `response[0] = 255`, yet
`response[0] + 1 > len(response)`, and the key slice
`response[1 : publicKeyLen+1]` is out of range — the parse panics. -/
theorem c9_counterexample :
    35 + ("" : String).length ≤ overflowResponse.length ∧
    overflowResponse.getD 0 0 = 255 ∧
    ¬ (overflowResponse.getD 0 0 + 1 ≤ overflowResponse.length) ∧
    parsePubKeyResponse "" overflowResponse = .crash ∧
    getPubKey okSerializer okSerializer okSerializer (fun _ => (overflowResponse, none))
      "m" false "" "c" = .crash :=
  ⟨by decide, rfl, by decide, rfl, rfl⟩

end LedgerAvax
